import Mathlib

/-!
Verification of the federated content search service (Go backend).

The definitions below are a shallow embedding of the backend's core:
the scoring service, the search use case (validation, cache key,
pagination envelope), the provider adapters' pagination/normalization
loop, and the content repository's state-changing operations
(`Upsert`, `AddTags`, `MarkStaleContentsAsDeleted`) together with the
sync orchestrator.

Modelling conventions:
* Go `float64` arithmetic is modelled by exact rationals (`ℚ`);
  `math.Round` is `goRound` (half away from zero).
* Go `int`/`int32`/`int64` values are modelled by `ℤ` (or `ℕ` for
  values that are non-negative by construction); no operation in the
  verified fragment can overflow 64 bits on the inputs considered.
* `time.Time`/`time.Duration` are modelled as integer nanoseconds.
* The PostgreSQL tables are modelled as lists of rows; SQL statements
  become pure state transformers.  The `BEFORE UPDATE` trigger
  `update_contents_updated_at` (schema migration) is folded into the
  transformers: every update refreshes `updated_at`.
* External collaborators (HTTP transport, the MD5 digest, the RFC-3339
  date parser) are parameters of the embedded functions.
-/

set_option maxHeartbeats 1000000

namespace SearchEngine

/-! ### Scoring service — `internal/domain/service/scoring_service.go` -/

/-- Go `math.Round`: round half away from zero. -/
def goRound (y : ℚ) : ℤ := if 0 ≤ y then round y else -round (-y)

/-- `math.Round(x*100)/100` — the two-decimal rounding applied to all
four score components before storage. -/
def round2 (x : ℚ) : ℚ := (goRound (x * 100) : ℚ) / 100

/-- `entity.ContentType` is a string type in the source. -/
def ContentTypeVideo : String := "video"

def ContentTypeArticle : String := "article"

/-- `entity.ContentStats` (only the fields the scoring service reads). -/
structure ContentStats where
  views : ℤ
  likes : ℤ
  readingTime : ℤ
  reactions : ℤ
deriving DecidableEq, Repr

/-- `entity.Content` (the fields the scoring service reads); `Stats` is
`nil`-able, hence an `Option`. -/
structure Content where
  contentType : String
  publishedAt : ℤ
  stats : Option ContentStats
deriving DecidableEq, Repr

/-- `entity.ContentScore` (the computed component tuple). -/
structure ContentScore where
  baseScore : ℚ
  typeWeight : ℚ
  recencyScore : ℚ
  engagementScore : ℚ
  finalScore : ℚ
deriving DecidableEq, Repr

/-- `service.ScoringRules`. -/
structure ScoringRules where
  videoTypeWeight : ℚ
  articleTypeWeight : ℚ
deriving DecidableEq, Repr

/-- `NewScoringService`: zero weights fall back to the defaults 1.5 / 1.0. -/
def NewScoringService (rules : ScoringRules) : ScoringRules :=
  { videoTypeWeight := if rules.videoTypeWeight = 0 then 3 / 2 else rules.videoTypeWeight
    articleTypeWeight := if rules.articleTypeWeight = 0 then 1 else rules.articleTypeWeight }

/-- `24*time.Hour` in nanoseconds. -/
def nanosPerDay : ℤ := 86400000000000

/-- `calculateRecencyScore`: +5 within a week, +3 within 30 days,
+1 within 90 days, else 0 (`duration := now.Sub(publishedAt)`). -/
def calculateRecencyScore (now publishedAt : ℤ) : ℚ :=
  if now - publishedAt ≤ 7 * nanosPerDay then 5
  else if now - publishedAt ≤ 30 * nanosPerDay then 3
  else if now - publishedAt ≤ 90 * nanosPerDay then 1
  else 0

/-- `calculateEngagementScore`: `(likes/views)*10` for videos with
`views > 0`, `(reactions/reading_time)*5` for articles with
`reading_time > 0`, otherwise 0. -/
def calculateEngagementScore (content : Content) : ℚ :=
  match content.stats with
  | none => 0
  | some stats =>
    if content.contentType = ContentTypeVideo then
      if stats.views = 0 then 0 else ((stats.likes : ℚ) / (stats.views : ℚ)) * 10
    else
      if stats.readingTime = 0 then 0 else ((stats.reactions : ℚ) / (stats.readingTime : ℚ)) * 5

/-- `scoringService.CalculateScore`: `nil` when stats are absent; base and
weight by content type; final = base·weight + recency + engagement; all
four components two-decimal rounded before being returned (the type
weight is stored unrounded). -/
def CalculateScore (s : ScoringRules) (now : ℤ) (content : Content) : Option ContentScore :=
  match content.stats with
  | none => none
  | some stats =>
    let bw : ℚ × ℚ :=
      if content.contentType = ContentTypeVideo then
        ((stats.views : ℚ) / 1000 + (stats.likes : ℚ) / 100, s.videoTypeWeight)
      else
        ((stats.readingTime : ℚ) + (stats.reactions : ℚ) / 50, s.articleTypeWeight)
    let recency := calculateRecencyScore now content.publishedAt
    let engagement := calculateEngagementScore content
    let final := bw.1 * bw.2 + recency + engagement
    some { baseScore := round2 bw.1, typeWeight := bw.2, recencyScore := round2 recency,
           engagementScore := round2 engagement, finalScore := round2 final }

/-- The scoring rules `main.go` passes to `NewScoringService`. -/
def defaultRules : ScoringRules := NewScoringService ⟨3 / 2, 1⟩

/-- The "hot video" of the spec's end-to-end scenario 1:
views 150000, likes 5000, published 5 days before `now`. -/
def hotVideo : Content :=
  { contentType := "video", publishedAt := 0, stats := some ⟨150000, 5000, 0, 0⟩ }

/-- Video input exhibiting maximal drift between the rounded final score
and the recombination of the rounded components. -/
def driftVideo : Content :=
  { contentType := "video", publishedAt := 0, stats := some ⟨364, 291, 0, 0⟩ }

/-! ### Search use case — `internal/application/usecase/search_contents.go`
and the HTTP handler `internal/transport/http/handlers.go` -/

/-- `port.SearchParams`. -/
structure SearchParams where
  query : String
  contentType : String
  sortBy : String
  page : ℤ
  pageSize : ℤ
deriving DecidableEq, Repr

/-- The defaulting/clamping `validateParams` performs in place (lines
99–115 of the method): `page ≥ 1`, `pageSize ∈ [1,50]` with default 20,
`sortBy = "popularity"` when empty. -/
def defaultedParams (p : SearchParams) : SearchParams :=
  let p1 := if p.page < 1 then { p with page := 1 } else p
  let p2 := if p1.pageSize < 1 then { p1 with pageSize := 20 } else p1
  let p3 := if p2.pageSize > 50 then { p2 with pageSize := 50 } else p2
  if p3.sortBy = "" then { p3 with sortBy := "popularity" } else p3

/-- `SearchContentsUseCase.validateParams`: default/clamp, then reject
unknown sort values and content types.  The Go method mutates `params`
in place; here the updated record is returned. -/
def validateParams (p : SearchParams) : Except String SearchParams :=
  let p4 := defaultedParams p
  if p4.sortBy ≠ "popularity" ∧ p4.sortBy ≠ "relevance" then
    .error ("geçersiz sıralama kriteri: " ++ p4.sortBy ++ " (popularity veya relevance olmalı)")
  else if p4.contentType ≠ "" ∧ p4.contentType ≠ ContentTypeVideo
      ∧ p4.contentType ≠ ContentTypeArticle then
    .error ("geçersiz içerik türü: " ++ p4.contentType)
  else
    .ok p4

/-- Decimal digits of `n`, most significant first (`fmt.Sprintf("%d", ·)`
for naturals); fuel-based so that it reduces by `rfl`. -/
def natDecAux : ℕ → ℕ → List Char
  | 0, _ => []
  | _ + 1, 0 => []
  | fuel + 1, n + 1 => natDecAux fuel ((n + 1) / 10) ++ [Nat.digitChar ((n + 1) % 10)]

/-- `fmt.Sprintf("%d", n)` for a natural number, as a character list. -/
def natDecChars (n : ℕ) : List Char := if n = 0 then ['0'] else natDecAux (n + 1) n

/-- Numeric value of a decimal digit character. -/
def charVal (c : Char) : ℕ := c.toNat - 48

/-- Numeric value of a decimal digit string (used to invert `natDecChars`). -/
def listVal (l : List Char) : ℕ := l.foldl (fun a c => 10 * a + charVal c) 0

/-- No character of `l` is the `':'` separator of the cache-key format. -/
abbrev colonFree (l : List Char) : Prop := ∀ c ∈ l, c ≠ ':'

/-- `fmt.Sprintf("%d", n)` for a Go `int`. -/
def intDec (n : ℤ) : String :=
  if n < 0 then String.mk ('-' :: natDecChars (-n).toNat) else String.mk (natDecChars n.toNat)

/-- The canonical string `fmt.Sprintf("search:%s:%s:%s:%d:%d", …)` that
`generateCacheKey` hashes. -/
def cacheKeyBase (p : SearchParams) : String :=
  "search:" ++ p.query ++ ":" ++ p.contentType ++ ":" ++ p.sortBy ++ ":"
    ++ intDec p.page ++ ":" ++ intDec p.pageSize

/-- `SearchContentsUseCase.generateCacheKey`; the MD5-hex digest
`fmt.Sprintf("%x", md5.Sum(...))` is a parameter. -/
def generateCacheKey (digest : String → String) (p : SearchParams) : String :=
  "search:" ++ digest (cacheKeyBase p)

/-- `usecase.Pagination`. -/
structure Pagination where
  page : ℤ
  pageSize : ℤ
  totalItems : ℤ
  totalPages : ℤ
deriving DecidableEq, Repr

/-- `usecase.SearchResult` (`α` is the item type `*entity.Content`). -/
structure SearchResult (α : Type) where
  items : List α
  pagination : Pagination
deriving DecidableEq

/-- `SearchContentsUseCase.Execute`: validate, consult the cache by
fingerprint, otherwise query the store and build the pagination
envelope with `TotalPages = (total + pageSize − 1) / pageSize` (Go
truncated division).  The cache and the repository are parameters; a
cache hit returns the deserialized cached envelope. -/
def execute {α : Type} (digest : String → String)
    (cacheGet : String → Option (SearchResult α))
    (repoSearch : SearchParams → Except String (List α × ℤ))
    (params : SearchParams) : Except String (SearchResult α) :=
  match validateParams params with
  | .error e => .error e
  | .ok p =>
    match cacheGet (generateCacheKey digest p) with
    | some r => .ok r
    | none =>
      match repoSearch p with
      | .error e => .error ("arama hatası: " ++ e)
      | .ok (contents, total) =>
        .ok { items := contents
              pagination :=
                { page := p.page, pageSize := p.pageSize, totalItems := total,
                  totalPages := Int.tdiv (total + p.pageSize - 1) p.pageSize } }

/-- `strconv.Atoi` as used by the handler: the error is discarded and the
zero value is kept. -/
def atoi (s : String) : ℤ := (s.toInt?).getD 0

/-! ### Provider adapters — `infrastructure/provider/json_provider.go`
and `infrastructure/provider/xml_provider.go` -/

/-- `entity.NormalizedContent`. -/
structure NormalizedContent where
  externalId : String
  title : String
  description : String
  contentType : String
  publishedAt : ℤ
  stats : ContentStats
  tags : List String
  rawData : String
deriving DecidableEq, Repr

/-- `provider.JSONMetrics`. -/
structure JSONMetrics where
  views : ℤ
  likes : ℤ
  duration : String
  readingTime : ℤ
  reactions : ℤ
deriving DecidableEq, Repr

/-- `provider.JSONContent` — one decoded item of the json_v1 feed. -/
structure JSONContent where
  id : String
  title : String
  itemType : String
  metrics : JSONMetrics
  publishedAt : String
  tags : List String
deriving DecidableEq, Repr

/-- `provider.XMLStats`. -/
structure XMLStats where
  views : ℤ
  likes : ℤ
  readingTime : ℤ
  reactions : ℤ
deriving DecidableEq, Repr

/-- `provider.XMLItem` — one decoded item of the xml_v1 feed. -/
structure XMLItem where
  id : String
  title : String
  itemType : String
  stats : XMLStats
  pubDate : String
  categories : List String
deriving DecidableEq, Repr

/-- `jsonProvider.normalize`: drops the record on an unparseable RFC-3339
date or an unknown type — there is no check on `raw.ID`.
`time.Parse(time.RFC3339, ·)` is the parameter `parseRFC3339`
(`none` = parse error). -/
def jsonNormalize (parseRFC3339 : String → Option ℤ) (raw : JSONContent) (rawData : String) :
    Option NormalizedContent :=
  match parseRFC3339 raw.publishedAt with
  | none => none
  | some publishedAt =>
    if raw.itemType = "video" ∨ raw.itemType = "article" then
      some { externalId := raw.id, title := raw.title, description := "",
             contentType := if raw.itemType = "video" then ContentTypeVideo
               else ContentTypeArticle,
             publishedAt := publishedAt,
             stats := ⟨raw.metrics.views, raw.metrics.likes, raw.metrics.readingTime,
               raw.metrics.reactions⟩,
             tags := raw.tags, rawData := rawData }
    else none

/-- `xmlProvider.normalize`: drops the record when `raw.ID` is empty,
when neither RFC-3339 nor `YYYY-MM-DD` parses the date, or on an unknown
type. -/
def xmlNormalize (parseRFC3339 parseDateOnly : String → Option ℤ) (raw : XMLItem)
    (rawData : String) : Option NormalizedContent :=
  if raw.id = "" then none
  else
    match (parseRFC3339 raw.pubDate).orElse (fun _ => parseDateOnly raw.pubDate) with
    | none => none
    | some publishedAt =>
      if raw.itemType = "video" ∨ raw.itemType = "article" then
        some { externalId := raw.id, title := raw.title, description := "",
               contentType := if raw.itemType = "video" then ContentTypeVideo
                 else ContentTypeArticle,
               publishedAt := publishedAt,
               stats := ⟨raw.stats.views, raw.stats.likes, raw.stats.readingTime,
                 raw.stats.reactions⟩,
               tags := raw.categories, rawData := rawData }
      else none

/-- One decoded feed page: items plus the `total`/`per_page` pagination
hint (json) or `total_count`/`items_per_page` meta (xml). -/
structure FeedPage (ι : Type) where
  items : List ι
  total : ℤ
  perPage : ℤ

/-- The per-page normalize-and-append loop body of `FetchContents`
(errors `continue`, successes are appended). -/
def normalizePage {ι : Type} (norm : ι → Option NormalizedContent) (items : List ι) :
    List NormalizedContent :=
  items.filterMap norm

/-- The `for page <= totalPages` loop of `FetchContents` for the pages
after the first (`totalPages` is fixed once page 1 is seen, so the
remaining iteration count is the fuel).  The safety check
`len(allNormalized) >= total || len(allNormalized) >= 1000` runs BEFORE
the page's records are appended. -/
def fetchLoop {ι : Type} (pages : ℤ → FeedPage ι) (norm : ι → Option NormalizedContent) :
    ℕ → ℤ → List NormalizedContent → List NormalizedContent
  | 0, _, acc => acc
  | fuel + 1, page, acc =>
    let resp := pages page
    if (acc.length : ℤ) ≥ resp.total ∨ (acc.length : ℤ) ≥ 1000 then acc
    else fetchLoop pages norm fuel (page + 1) (acc ++ normalizePage norm resp.items)

/-- `FetchContents` (identical loop structure in the json and xml
adapters): walk `page = 1, 2, …`; on page 1 derive
`totalPages = ⌈total / perPage⌉` from the hint (staying at 1 when
`perPage ≤ 0`); stop at `totalPages`, or as soon as the accumulated
count reaches `total` or the 1000-record safety bound — checked before
the freshly fetched page is appended.  The remote is the function
`pages`; per-item normalization (with the re-marshalled raw payload
already applied) is `norm`. -/
def FetchContents {ι : Type} (pages : ℤ → FeedPage ι)
    (norm : ι → Option NormalizedContent) : List NormalizedContent :=
  let resp1 := pages 1
  let totalPages : ℤ :=
    if resp1.perPage > 0 then Int.tdiv (resp1.total + resp1.perPage - 1) resp1.perPage else 1
  if (0 : ℤ) ≥ resp1.total ∨ (0 : ℤ) ≥ 1000 then []
  else fetchLoop pages norm (totalPages - 1).toNat 2 (normalizePage norm resp1.items)

/-- A syntactically valid json_v1 feed item. -/
def overshootItem : JSONContent :=
  ⟨"x1", "t", "video", ⟨0, 0, "", 0, 0⟩, "2024-01-01T00:00:00Z", []⟩

/-- A json_v1 feed page whose 999 valid records per page overshoot the
1000-record safety bound. -/
def overshootPage : FeedPage JSONContent :=
  { items := List.replicate 999 overshootItem, total := 10000, perPage := 999 }

/-- The normalized record produced from `overshootPage`'s item. -/
def overshootNC : NormalizedContent :=
  ⟨"x1", "t", "", "video", 0, ⟨0, 0, 0, 0⟩, [], ""⟩

/-- A one-page json_v1 feed whose single item has an empty `id`. -/
def emptyIdPage : FeedPage JSONContent :=
  { items := [⟨"", "t", "video", ⟨0, 0, "", 0, 0⟩, "2024-01-01T00:00:00Z", []⟩],
    total := 1, perPage := 1 }

/-- A one-page xml_v1 feed with a single valid item with id "a". -/
def xmlOnePage : FeedPage XMLItem :=
  { items := [⟨"a", "t", "video", ⟨0, 0, 0, 0⟩, "2024-01-01", []⟩], total := 1, perPage := 1 }

/-! ### Content store — `infrastructure/repository/postgres_content_repository.go`,
modelled as pure transformers over table rows.  Timestamps written by the
database (`CURRENT_TIMESTAMP`, column defaults and the
`update_contents_updated_at` trigger) are ℕ-valued clock ticks passed in
as `now`. -/

/-- A row of the `contents` table. -/
structure ContentRow where
  id : ℕ
  providerId : ℕ
  externalId : String
  title : String
  description : String
  contentType : String
  publishedAt : ℤ
  rawData : String
  deleted : Bool
  createdAt : ℕ
  updatedAt : ℕ
deriving DecidableEq, Repr

/-- A row of `content_stats` (1:1 with contents). -/
structure StatsRow where
  contentId : ℕ
  views : ℤ
  likes : ℤ
  readingTime : ℤ
  reactions : ℤ
  updatedAt : ℕ
deriving DecidableEq, Repr

/-- A row of `content_scores` (1:1 with contents). -/
structure ScoreRow where
  contentId : ℕ
  baseScore : ℚ
  typeWeight : ℚ
  recencyScore : ℚ
  engagementScore : ℚ
  finalScore : ℚ
  calculatedAt : ℕ
deriving DecidableEq, Repr

/-- The database state: the `contents`, `content_stats`,
`content_scores`, `tags` and `content_tags` tables plus the id
sequences. -/
structure Db where
  rows : List ContentRow
  nextId : ℕ
  statsRows : List StatsRow
  scoreRows : List ScoreRow
  tags : List (ℕ × String)
  links : List (ℕ × ℕ)
  nextTagId : ℕ
deriving DecidableEq, Repr

/-- The `DO UPDATE` arm of `Upsert`: overwrite the mutable fields, reset
`deleted` to 0; the `update_contents_updated_at` trigger refreshes
`updated_at`. -/
def upsertRowUpdate (now : ℕ) (nc : NormalizedContent) (r : ContentRow) : ContentRow :=
  { r with
    title := nc.title, description := nc.description, contentType := nc.contentType,
    publishedAt := nc.publishedAt, rawData := nc.rawData, deleted := false, updatedAt := now }

/-- `postgresContentRepository.Upsert`: `INSERT … ON CONFLICT
(provider_id, provider_content_id) DO UPDATE …, deleted = 0 RETURNING
id`.  Returns the new state together with the surrogate id. -/
def Upsert (db : Db) (now pid : ℕ) (nc : NormalizedContent) : Db × ℕ :=
  match db.rows.find? (fun r => r.providerId == pid && r.externalId == nc.externalId) with
  | some existing =>
    ({ db with rows := db.rows.map (fun r =>
        if r.providerId == pid && r.externalId == nc.externalId then upsertRowUpdate now nc r
        else r) }, existing.id)
  | none =>
    ({ db with
        rows := db.rows ++ [{
          id := db.nextId, providerId := pid, externalId := nc.externalId,
          title := nc.title, description := nc.description, contentType := nc.contentType,
          publishedAt := nc.publishedAt, rawData := nc.rawData, deleted := false,
          createdAt := now, updatedAt := now }],
        nextId := db.nextId + 1 }, db.nextId)

/-- `CreateOrUpdateStats`: `INSERT … ON CONFLICT (content_id) DO UPDATE`. -/
def CreateOrUpdateStats (db : Db) (now cid : ℕ) (st : ContentStats) : Db :=
  if db.statsRows.any (fun r => r.contentId == cid) then
    { db with statsRows := db.statsRows.map (fun r =>
        if r.contentId == cid then
          { r with
            views := st.views, likes := st.likes, readingTime := st.readingTime,
            reactions := st.reactions, updatedAt := now }
        else r) }
  else
    { db with statsRows :=
        db.statsRows ++ [⟨cid, st.views, st.likes, st.readingTime, st.reactions, now⟩] }

/-- `CreateOrUpdateScore`: `INSERT … ON CONFLICT (content_id) DO UPDATE
…, calculated_at = CURRENT_TIMESTAMP`. -/
def CreateOrUpdateScore (db : Db) (now cid : ℕ) (sc : ContentScore) : Db :=
  if db.scoreRows.any (fun r => r.contentId == cid) then
    { db with scoreRows := db.scoreRows.map (fun r =>
        if r.contentId == cid then
          { r with
            baseScore := sc.baseScore, typeWeight := sc.typeWeight,
            recencyScore := sc.recencyScore, engagementScore := sc.engagementScore,
            finalScore := sc.finalScore, calculatedAt := now }
        else r) }
  else
    { db with scoreRows := db.scoreRows ++ [⟨cid, sc.baseScore, sc.typeWeight, sc.recencyScore,
        sc.engagementScore, sc.finalScore, now⟩] }

/-- The tag upsert inside `AddTags`: `INSERT INTO tags (name) VALUES ($1)
ON CONFLICT (name) DO UPDATE SET name = EXCLUDED.name RETURNING id`. -/
def ensureTag (db : Db) (name : String) : Db × ℕ :=
  match db.tags.find? (fun t => t.2 == name) with
  | some t => (db, t.1)
  | none =>
    ({ db with tags := db.tags ++ [(db.nextTagId, name)], nextTagId := db.nextTagId + 1 },
      db.nextTagId)

/-- The link insert inside `AddTags`: `INSERT INTO content_tags … ON
CONFLICT DO NOTHING`. -/
def ensureLink (db : Db) (cid tid : ℕ) : Db :=
  if (cid, tid) ∈ db.links then db else { db with links := db.links ++ [(cid, tid)] }

/-- Go `strings.ToLower` (character-wise; coincides with Go on ASCII). -/
def goToLower (s : String) : String := ⟨s.data.map Char.toLower⟩

/-- Go `strings.TrimSpace`: strip leading and trailing whitespace. -/
def goTrimSpace (s : String) : String :=
  ⟨((s.data.dropWhile Char.isWhitespace).reverse.dropWhile Char.isWhitespace).reverse⟩

/-- One iteration of the `AddTags` loop: trim and lower-case the name
(`strings.ToLower(strings.TrimSpace(tagName))`), upsert the tag row,
insert the link. -/
def addTagStep (cid : ℕ) (db : Db) (name : String) : Db :=
  let db1t := ensureTag db (goToLower (goTrimSpace name))
  ensureLink db1t.1 cid db1t.2

/-- `postgresContentRepository.AddTags`: the whole loop runs in one
transaction (the pure transformer is intrinsically atomic: it either
yields the full new state or — in the model — cannot fail). -/
def AddTags (db : Db) (cid : ℕ) (tagNames : List String) : Db :=
  tagNames.foldl (addTagStep cid) db

/-- The row transformer of `MarkStaleContentsAsDeleted`'s single UPDATE:
`SET deleted = 1, updated_at = CURRENT_TIMESTAMP WHERE provider_id = $1
AND updated_at < $2 AND deleted = 0`. -/
def markStaleRow (pid threshold now : ℕ) (r : ContentRow) : ContentRow :=
  if r.providerId = pid ∧ r.updatedAt < threshold ∧ r.deleted = false then
    { r with deleted := true, updatedAt := now }
  else r

/-- `postgresContentRepository.MarkStaleContentsAsDeleted`. -/
def MarkStaleContentsAsDeleted (db : Db) (pid threshold now : ℕ) : Db :=
  { db with rows := db.rows.map (markStaleRow pid threshold now) }

/-- `SyncProviderContentsUseCase.processContent`: upsert the content,
create-or-update its stats, compute the score (the scoring clock is
`scoringNow`) and store it when defined, then add the tags when
any are present.  `now` is the database clock during this record's
writes. -/
def processContent (rules : ScoringRules) (scoringNow : ℤ) (db : Db) (now pid : ℕ)
    (nc : NormalizedContent) : Db :=
  let upserted := Upsert db now pid nc
  let db2 := CreateOrUpdateStats upserted.1 now upserted.2 nc.stats
  let content : Content :=
    { contentType := nc.contentType, publishedAt := nc.publishedAt, stats := some nc.stats }
  let db3 :=
    match CalculateScore rules scoringNow content with
    | none => db2
    | some sc => CreateOrUpdateScore db2 now upserted.2 sc
  if nc.tags.length > 0 then AddTags db3 upserted.2 nc.tags else db3

/-- The record loop of `syncProvider`: the i-th record's writes happen
at database time `t + i` (the clock is monotone during the run). -/
def processAll (rules : ScoringRules) (scoringNow : ℤ) (pid : ℕ) :
    Db → ℕ → List NormalizedContent → Db
  | db, _, [] => db
  | db, t, nc :: rest =>
    processAll rules scoringNow pid (processContent rules scoringNow db t pid nc) (t + 1) rest

/-- `SyncProviderContentsUseCase.syncProvider`: capture
`startTime = t0`, fetch (the adapter's output is `recs`), process every
record at strictly increasing times after `t0`, then
`MarkStaleContentsAsDeleted(provider.ID, startTime)`. -/
def syncProvider (rules : ScoringRules) (scoringNow : ℤ) (db : Db) (pid t0 : ℕ)
    (recs : List NormalizedContent) : Db :=
  MarkStaleContentsAsDeleted (processAll rules scoringNow pid db (t0 + 1) recs) pid t0
    (t0 + 1 + recs.length)

/-- The empty database (fresh sequences start at 1, as in PostgreSQL). -/
def emptyDb : Db := ⟨[], 1, [], [], [], [], 1⟩

/-- A live content row of provider 1 with external id "b", last updated
at tick 5. -/
def rowStale : ContentRow :=
  { id := 2, providerId := 1, externalId := "b", title := "tb", description := "",
    contentType := "video", publishedAt := 0, rawData := "", deleted := false,
    createdAt := 0, updatedAt := 5 }

/-- A database holding only `rowStale`. -/
def dbStale : Db := ⟨[rowStale], 3, [], [], [], [], 1⟩

/-- The JSON body written by `respondJSON`/`respondError`. -/
inductive ResponseBody (α : Type) where
  | errorBody (msg : String)
  | resultBody (r : SearchResult α)
deriving DecidableEq

/-- `SearchHandler.HandleSearch`: parse query parameters (with defaults),
run the use case, answer 200 with the result or 500 with `{error}` —
every use-case error, validation errors included, is mapped to
`http.StatusInternalServerError`. -/
def handleSearch {α : Type} (digest : String → String)
    (cacheGet : String → Option (SearchResult α))
    (repoSearch : SearchParams → Except String (List α × ℤ))
    (query typeStr sortStr pageStr pageSizeStr : String) : ℤ × ResponseBody α :=
  let sortBy := if sortStr = "" then "popularity" else sortStr
  let page0 := atoi pageStr
  let page := if page0 < 1 then 1 else page0
  let pageSize0 := atoi pageSizeStr
  let pageSize := if pageSize0 < 1 then 20 else pageSize0
  match execute digest cacheGet repoSearch
      { query := query, contentType := typeStr, sortBy := sortBy,
        page := page, pageSize := pageSize } with
  | .error e => (500, .errorBody e)
  | .ok r => (200, .resultBody r)

end SearchEngine

namespace SearchEngine

/-! ### Scoring proofs -/

theorem abs_goRound_sub (y : ℚ) : |(goRound y : ℚ) - y| ≤ 1 / 2 := by
  unfold goRound
  split
  · rw [abs_sub_comm]; exact abs_sub_round y
  · push_cast
    have h := abs_sub_round (-y)
    rw [abs_sub_comm] at h
    calc |-(round (-y) : ℚ) - y| = |(round (-y) : ℚ) - -y| := by rw [← abs_neg]; ring_nf
    _ ≤ 1 / 2 := h

theorem abs_round2_sub (x : ℚ) : |round2 x - x| ≤ 1 / 200 := by
  have h := abs_goRound_sub (x * 100)
  have : round2 x - x = ((goRound (x * 100) : ℚ) - x * 100) / 100 := by
    unfold round2; ring
  rw [this, abs_div]
  have h100 : |(100 : ℚ)| = 100 := by norm_num
  rw [h100]
  linarith

theorem round2_recencyScore (now pub : ℤ) :
    round2 (calculateRecencyScore now pub) = calculateRecencyScore now pub := by
  unfold calculateRecencyScore
  split
  · norm_num [round2, goRound, round_eq]
  · split
    · norm_num [round2, goRound, round_eq]
    · split
      · norm_num [round2, goRound, round_eq]
      · norm_num [round2, goRound, round_eq]

theorem round2_recombination (b w r e : ℚ) (hw : 0 ≤ w) (hr : round2 r = r) :
    |round2 (b * w + r + e) - (round2 b * w + round2 r + round2 e)| ≤ (2 + w) / 200 := by
  rw [hr]
  have h1 := abs_round2_sub (b * w + r + e)
  have hb : |b - round2 b| ≤ 1 / 200 := by rw [abs_sub_comm]; exact abs_round2_sub b
  have he : |e - round2 e| ≤ 1 / 200 := by rw [abs_sub_comm]; exact abs_round2_sub e
  have key : round2 (b * w + r + e) - (round2 b * w + r + round2 e)
      = (round2 (b * w + r + e) - (b * w + r + e)) + ((b - round2 b) * w + (e - round2 e)) := by
    ring
  rw [key]
  have h4 : |(b - round2 b) * w| ≤ 1 / 200 * w := by
    rw [abs_mul, abs_of_nonneg hw]
    exact mul_le_mul_of_nonneg_right hb hw
  calc |(round2 (b * w + r + e) - (b * w + r + e)) + ((b - round2 b) * w + (e - round2 e))|
      ≤ |round2 (b * w + r + e) - (b * w + r + e)| + |(b - round2 b) * w + (e - round2 e)| :=
        abs_add _ _
    _ ≤ 1 / 200 + (|(b - round2 b) * w| + |e - round2 e|) := by
        have := abs_add ((b - round2 b) * w) (e - round2 e); linarith
    _ ≤ 1 / 200 + (1 / 200 * w + 1 / 200) := by linarith
    _ = (2 + w) / 200 := by ring

/-- C1 (counterexample): on the spec's "hot video" input
(views 150000, likes 5000, published 5 days ago) `CalculateScore` does
NOT return the component tuple the spec states — the spec's engagement
3.33 and final 308.33 are not what the code computes. -/
theorem CalculateScore_hotVideo_spec_values_false :
    CalculateScore defaultRules (5 * nanosPerDay) hotVideo
      ≠ some ⟨200, 3 / 2, 5, 333 / 100, 30833 / 100⟩ := by
  norm_num [CalculateScore, defaultRules, NewScoringService, hotVideo, calculateRecencyScore,
    calculateEngagementScore, ContentTypeVideo, nanosPerDay, round2, goRound, round_eq,
    ContentScore.mk.injEq]

/-- C1 (amended): on the "hot video" input `CalculateScore` returns
base = 200.0, type_weight = 1.5, recency = 5.0, engagement = 0.33
(= round2((5000/150000)·10)), final = 305.33 (= round2(200·1.5 + 5 + 1/3)). -/
theorem CalculateScore_hotVideo_components :
    CalculateScore defaultRules (5 * nanosPerDay) hotVideo
      = some ⟨200, 3 / 2, 5, 33 / 100, 30533 / 100⟩ := by
  norm_num [CalculateScore, defaultRules, NewScoringService, hotVideo, calculateRecencyScore,
    calculateEngagementScore, ContentTypeVideo, nanosPerDay, round2, goRound, round_eq,
    ContentScore.mk.injEq]

/-- C2 (counterexample): a video with views 364 and likes 291 published
5 days ago gets the rounded components base = 3.27, weight = 1.5,
recency = 5.0, engagement = 7.99, final = 17.91, and
|17.91 − (3.27·1.5 + 5 + 7.99)| = 0.015 > 0.01: the stored components
break the claimed 0.01 recombination bound. -/
theorem CalculateScore_recombination_cex :
    CalculateScore defaultRules (5 * nanosPerDay) driftVideo
        = some ⟨327 / 100, 3 / 2, 5, 799 / 100, 1791 / 100⟩
      ∧ ¬ (|(1791 / 100 : ℚ) - (327 / 100 * (3 / 2) + 5 + 799 / 100)| ≤ 1 / 100) := by
  constructor
  · norm_num [CalculateScore, defaultRules, NewScoringService, driftVideo, calculateRecencyScore,
      calculateEngagementScore, ContentTypeVideo, nanosPerDay, round2, goRound, round_eq,
      ContentScore.mk.injEq]
  · rw [abs_le]
    norm_num

/-- C2 (amended): every score `CalculateScore` produces (with
non-negative configured weights) recombines to within
(2 + type_weight)/200 — 0.0175 for the default video weight 1.5 —
because the base, engagement and final components are each rounded by at
most 0.005 (the recency component is rounding-invariant and the stored
type weight is unrounded). -/
theorem CalculateScore_recombination_bound (s : ScoringRules) (now : ℤ) (c : Content)
    (sc : ContentScore) (hv : 0 ≤ s.videoTypeWeight) (ha : 0 ≤ s.articleTypeWeight)
    (h : CalculateScore s now c = some sc) :
    |sc.finalScore - (sc.baseScore * sc.typeWeight + sc.recencyScore + sc.engagementScore)|
      ≤ (2 + sc.typeWeight) / 200 := by
  rcases c with ⟨ct, pub, stats⟩
  cases stats with
  | none => simp [CalculateScore] at h
  | some st =>
    by_cases hct : ct = ContentTypeVideo
    · simp only [CalculateScore, hct, if_pos rfl] at h
      rw [Option.some.injEq] at h
      subst h
      exact round2_recombination _ _ _ _ hv (round2_recencyScore _ _)
    · simp only [CalculateScore, if_neg hct] at h
      rw [Option.some.injEq] at h
      subst h
      exact round2_recombination _ _ _ _ ha (round2_recencyScore _ _)

theorem defaultedParams_query (p : SearchParams) : (defaultedParams p).query = p.query := by
  unfold defaultedParams
  dsimp only
  split_ifs <;> rfl

theorem defaultedParams_contentType (p : SearchParams) :
    (defaultedParams p).contentType = p.contentType := by
  unfold defaultedParams
  dsimp only
  split_ifs <;> rfl

theorem defaultedParams_page (p : SearchParams) : 1 ≤ (defaultedParams p).page := by
  unfold defaultedParams
  dsimp only
  split_ifs <;> simp_all

theorem defaultedParams_pageSize (p : SearchParams) :
    1 ≤ (defaultedParams p).pageSize ∧ (defaultedParams p).pageSize ≤ 50 := by
  unfold defaultedParams
  dsimp only
  split_ifs <;> simp_all

theorem validateParams_ok_inv (p q : SearchParams) (h : validateParams p = .ok q) :
    q = defaultedParams p
    ∧ (q.sortBy = "popularity" ∨ q.sortBy = "relevance")
    ∧ (q.contentType = "" ∨ q.contentType = ContentTypeVideo
        ∨ q.contentType = ContentTypeArticle)
    ∧ 1 ≤ q.page ∧ 1 ≤ q.pageSize ∧ q.pageSize ≤ 50 := by
  unfold validateParams at h
  dsimp only at h
  split_ifs at h with hs hc
  rw [Except.ok.injEq] at h
  subst h
  push_neg at hs hc
  refine ⟨rfl, ?_, ?_, defaultedParams_page p,
    (defaultedParams_pageSize p).1, (defaultedParams_pageSize p).2⟩
  · by_cases hpop : (defaultedParams p).sortBy = "popularity"
    · exact Or.inl hpop
    · exact Or.inr (hs hpop)
  · by_cases hempty : (defaultedParams p).contentType = ""
    · exact Or.inl hempty
    · by_cases hvid : (defaultedParams p).contentType = ContentTypeVideo
      · exact Or.inr (Or.inl hvid)
      · exact Or.inr (Or.inr (hc hempty hvid))

theorem string_append_left_cancel (a s t : String) (h : a ++ s = a ++ t) : s = t := by
  apply String.ext
  have hd := congrArg String.data h
  rw [String.data_append, String.data_append] at hd
  exact List.append_cancel_left hd

theorem tdiv_ceil_eq (a b : ℤ) (ha : 0 ≤ a) (hb : 0 < b) :
    Int.tdiv (a + b - 1) b = ⌈(a : ℚ) / (b : ℚ)⌉ := by
  have hab : 0 ≤ a + b - 1 := by omega
  rw [Int.tdiv_eq_ediv hab (le_of_lt hb)]
  symm
  rw [Int.ceil_eq_iff]
  have hq : (0 : ℚ) < (b : ℚ) := by exact_mod_cast hb
  have key := Int.ediv_add_emod (a + b - 1) b
  have hr0 : 0 ≤ (a + b - 1) % b := Int.emod_nonneg _ (by omega)
  have hrlt : (a + b - 1) % b < b := Int.emod_lt_of_pos _ hb
  constructor
  · rw [lt_div_iff₀ hq]
    have hz : ((a + b - 1) / b - 1) * b < a := by nlinarith [key]
    calc ((((a + b - 1) / b : ℤ) : ℚ) - 1) * b
        = ((((a + b - 1) / b - 1 : ℤ) : ℚ)) * ((b : ℤ) : ℚ) := by push_cast; ring
      _ < a := by exact_mod_cast (by push_cast; exact_mod_cast hz : (((a + b - 1) / b - 1 : ℤ) : ℚ) * ((b : ℤ) : ℚ) < ((a : ℤ) : ℚ))
  · rw [div_le_iff₀ hq]
    have hz : a ≤ ((a + b - 1) / b) * b := by nlinarith [key]
    exact_mod_cast hz

/-- Witness for C2 (amended) at the "hot video" input. -/
theorem CalculateScore_recombination_bound_witness :
    |(30533 / 100 : ℚ) - (200 * (3 / 2) + 5 + 33 / 100)| ≤ (2 + 3 / 2) / 200 :=
  CalculateScore_recombination_bound defaultRules (5 * nanosPerDay) hotVideo
    ⟨200, 3 / 2, 5, 33 / 100, 30533 / 100⟩ (by norm_num [defaultRules, NewScoringService])
    (by norm_num [defaultRules, NewScoringService])
    (by norm_num [CalculateScore, defaultRules, NewScoringService, hotVideo,
      calculateRecencyScore, calculateEngagementScore, ContentTypeVideo, nanosPerDay, round2,
      goRound, round_eq, ContentScore.mk.injEq])

theorem charVal_digitChar (k : ℕ) (hk : k < 10) : charVal (Nat.digitChar k) = k := by
  interval_cases k <;> rfl

theorem digitChar_ne_colon (k : ℕ) (hk : k < 10) : Nat.digitChar k ≠ ':' := by
  interval_cases k <;> decide

theorem listVal_append_singleton (l : List Char) (c : Char) :
    listVal (l ++ [c]) = 10 * listVal l + charVal c := by
  simp [listVal, List.foldl_append]

theorem natDecAux_val : ∀ fuel n, n ≤ fuel → listVal (natDecAux fuel n) = n := by
  intro fuel
  induction fuel with
  | zero =>
    intro n hn
    interval_cases n
    rfl
  | succ f ih =>
    intro n hn
    match n with
    | 0 => rfl
    | m + 1 =>
      rw [show natDecAux (f + 1) (m + 1)
            = natDecAux f ((m + 1) / 10) ++ [Nat.digitChar ((m + 1) % 10)] from rfl]
      rw [listVal_append_singleton, charVal_digitChar _ (Nat.mod_lt _ (by norm_num))]
      have hdiv : (m + 1) / 10 < m + 1 := Nat.div_lt_self (Nat.succ_pos m) (by norm_num)
      rw [ih ((m + 1) / 10) (by omega)]
      exact Nat.div_add_mod (m + 1) 10

theorem natDecChars_val (n : ℕ) : listVal (natDecChars n) = n := by
  unfold natDecChars
  split
  · subst n; rfl
  · exact natDecAux_val (n + 1) n (by omega)

theorem natDecChars_inj {m n : ℕ} (h : natDecChars m = natDecChars n) : m = n := by
  have hv := congrArg listVal h
  rwa [natDecChars_val, natDecChars_val] at hv

theorem natDecAux_colonFree : ∀ fuel n, colonFree (natDecAux fuel n) := by
  intro fuel
  induction fuel with
  | zero => intro n c hc; simp [natDecAux] at hc
  | succ f ih =>
    intro n
    match n with
    | 0 => intro c hc; simp [natDecAux] at hc
    | m + 1 =>
      intro c hc
      rw [show natDecAux (f + 1) (m + 1)
            = natDecAux f ((m + 1) / 10) ++ [Nat.digitChar ((m + 1) % 10)] from rfl] at hc
      rcases List.mem_append.mp hc with h1 | h2
      · exact ih _ c h1
      · rw [List.mem_singleton] at h2
        subst h2
        exact digitChar_ne_colon _ (Nat.mod_lt _ (by norm_num))

theorem natDecChars_colonFree (n : ℕ) : colonFree (natDecChars n) := by
  unfold natDecChars
  split
  · intro c hc
    rw [List.mem_singleton] at hc
    subst hc
    decide
  · exact natDecAux_colonFree _ _

theorem intDec_data_pos (n : ℤ) (h : 1 ≤ n) : (intDec n).data = natDecChars n.toNat := by
  unfold intDec
  rw [if_neg (by omega)]

theorem intDec_inj_pos {m n : ℤ} (hm : 1 ≤ m) (hn : 1 ≤ n) (h : intDec m = intDec n) :
    m = n := by
  have hd := congrArg String.data h
  rw [intDec_data_pos m hm, intDec_data_pos n hn] at hd
  have := natDecChars_inj hd
  omega

theorem field_split_inj : ∀ (u1 u2 v1 v2 : List Char), colonFree u1 → colonFree u2 →
    u1 ++ ':' :: v1 = u2 ++ ':' :: v2 → u1 = u2 ∧ v1 = v2 := by
  intro u1
  induction u1 with
  | nil =>
    intro u2 v1 v2 _ hu2 h
    cases u2 with
    | nil => simpa using h
    | cons d s =>
      exfalso
      simp only [List.nil_append, List.cons_append, List.cons.injEq] at h
      exact hu2 d (by simp) h.1.symm
  | cons c t ih =>
    intro u2 v1 v2 hu1 hu2 h
    cases u2 with
    | nil =>
      exfalso
      simp only [List.nil_append, List.cons_append, List.cons.injEq] at h
      exact hu1 c (by simp) h.1
    | cons d s =>
      simp only [List.cons_append, List.cons.injEq] at h
      obtain ⟨hcd, ht⟩ := h
      have hrec := ih s v1 v2 (fun x hx => hu1 x (by simp [hx]))
        (fun x hx => hu2 x (by simp [hx])) ht
      exact ⟨by rw [hcd, hrec.1], hrec.2⟩

theorem count_colon_zero (l : List Char) (hl : colonFree l) : List.count ':' l = 0 :=
  List.count_eq_zero.mpr (fun hm => hl ':' hm rfl)

theorem count_colon_tail (ct s p ps : List Char) (hct : colonFree ct) (hs : colonFree s)
    (hp : colonFree p) (hps : colonFree ps) :
    List.count ':' (':' :: (ct ++ ':' :: (s ++ ':' :: (p ++ ':' :: ps)))) = 4 := by
  simp [List.count_cons, List.count_append, count_colon_zero _ hct, count_colon_zero _ hs,
    count_colon_zero _ hp, count_colon_zero _ hps]

theorem encode5_inj (q1 ct1 s1 p1 ps1 q2 ct2 s2 p2 ps2 : List Char)
    (hct1 : colonFree ct1) (hs1 : colonFree s1) (hp1 : colonFree p1) (hps1 : colonFree ps1)
    (hct2 : colonFree ct2) (hs2 : colonFree s2) (hp2 : colonFree p2) (hps2 : colonFree ps2)
    (h : q1 ++ ':' :: (ct1 ++ ':' :: (s1 ++ ':' :: (p1 ++ ':' :: ps1)))
       = q2 ++ ':' :: (ct2 ++ ':' :: (s2 ++ ':' :: (p2 ++ ':' :: ps2)))) :
    q1 = q2 ∧ ct1 = ct2 ∧ s1 = s2 ∧ p1 = p2 ∧ ps1 = ps2 := by
  have hq : q1 = q2 := by
    rcases List.append_eq_append_iff.mp h with ⟨a, ha, hb⟩ | ⟨c, hc, hd⟩
    · cases a with
      | nil => simpa using ha.symm
      | cons x xs =>
        exfalso
        have hx : x = ':' := by
          simp only [List.cons_append, List.cons.injEq] at hb
          exact hb.1.symm
        have hcount := congrArg (List.count ':') hb
        rw [count_colon_tail _ _ _ _ hct1 hs1 hp1 hps1, List.count_append,
          count_colon_tail _ _ _ _ hct2 hs2 hp2 hps2] at hcount
        have hzero : List.count ':' (x :: xs) = 0 := by omega
        rw [hx] at hzero
        simp [List.count_cons] at hzero
    · cases c with
      | nil => simpa using hc
      | cons x xs =>
        exfalso
        have hx : x = ':' := by
          simp only [List.cons_append, List.cons.injEq] at hd
          exact hd.1.symm
        have hcount := congrArg (List.count ':') hd
        rw [count_colon_tail _ _ _ _ hct2 hs2 hp2 hps2, List.count_append,
          count_colon_tail _ _ _ _ hct1 hs1 hp1 hps1] at hcount
        have hzero : List.count ':' (x :: xs) = 0 := by omega
        rw [hx] at hzero
        simp [List.count_cons] at hzero
  subst hq
  have ht := (List.cons.injEq _ _ _ _ ▸ List.append_cancel_left h).2
  obtain ⟨hctEq, ht2⟩ := field_split_inj ct1 ct2 _ _ hct1 hct2 ht
  obtain ⟨hsEq, ht3⟩ := field_split_inj s1 s2 _ _ hs1 hs2 ht2
  obtain ⟨hpEq, hpsEq⟩ := field_split_inj p1 p2 _ _ hp1 hp2 ht3
  exact ⟨rfl, hctEq, hsEq, hpEq, hpsEq⟩

theorem cacheKeyBase_data (p : SearchParams) :
    (cacheKeyBase p).data
      = "search:".data ++ (p.query.data ++ ':' :: (p.contentType.data ++ ':' ::
          (p.sortBy.data ++ ':' :: ((intDec p.page).data ++ ':' :: (intDec p.pageSize).data)))) := by
  have hcolon : (":" : String).data = [':'] := rfl
  simp [cacheKeyBase, String.data_append, hcolon]

/-- C7: for validated parameter sets (with the MD5-hex digest abstracted
as an injective function, as the spec's "128-bit cryptographic digest is
sufficient" stipulates), `generateCacheKey` produces equal keys exactly
when the defaulted/clamped `(query, kind, sort, page, page_size)`
tuples coincide: the `:`-separated canonical string is injective because
every field other than the query is colon-free. -/
theorem generateCacheKey_coherent (digest : String → String)
    (hdig : Function.Injective digest) (p1 p2 q1 q2 : SearchParams)
    (h1 : validateParams p1 = .ok q1) (h2 : validateParams p2 = .ok q2) :
    generateCacheKey digest q1 = generateCacheKey digest q2 ↔
      (q1.query, q1.contentType, q1.sortBy, q1.page, q1.pageSize)
        = (q2.query, q2.contentType, q2.sortBy, q2.page, q2.pageSize) := by
  obtain ⟨-, hsort1, hct1, hpage1, hpsLo1, -⟩ := validateParams_ok_inv p1 q1 h1
  obtain ⟨-, hsort2, hct2, hpage2, hpsLo2, -⟩ := validateParams_ok_inv p2 q2 h2
  constructor
  · intro h
    have hb : cacheKeyBase q1 = cacheKeyBase q2 :=
      hdig (string_append_left_cancel "search:" _ _ h)
    have hd := congrArg String.data hb
    rw [cacheKeyBase_data, cacheKeyBase_data] at hd
    have hd' := List.append_cancel_left hd
    have hcf1 : colonFree q1.contentType.data := by
      rcases hct1 with h' | h' | h' <;> rw [h'] <;> decide
    have hcf2 : colonFree q2.contentType.data := by
      rcases hct2 with h' | h' | h' <;> rw [h'] <;> decide
    have hsf1 : colonFree q1.sortBy.data := by
      rcases hsort1 with h' | h' <;> rw [h'] <;> decide
    have hsf2 : colonFree q2.sortBy.data := by
      rcases hsort2 with h' | h' <;> rw [h'] <;> decide
    have hpf1 : colonFree (intDec q1.page).data := by
      rw [intDec_data_pos _ hpage1]; exact natDecChars_colonFree _
    have hpf2 : colonFree (intDec q2.page).data := by
      rw [intDec_data_pos _ hpage2]; exact natDecChars_colonFree _
    have hqf1 : colonFree (intDec q1.pageSize).data := by
      rw [intDec_data_pos _ hpsLo1]; exact natDecChars_colonFree _
    have hqf2 : colonFree (intDec q2.pageSize).data := by
      rw [intDec_data_pos _ hpsLo2]; exact natDecChars_colonFree _
    obtain ⟨e1, e2, e3, e4, e5⟩ :=
      encode5_inj _ _ _ _ _ _ _ _ _ _ hcf1 hsf1 hpf1 hqf1 hcf2 hsf2 hpf2 hqf2 hd'
    rw [Prod.mk.injEq, Prod.mk.injEq, Prod.mk.injEq, Prod.mk.injEq]
    exact ⟨String.ext e1, String.ext e2, String.ext e3,
      intDec_inj_pos hpage1 hpage2 (String.ext e4),
      intDec_inj_pos hpsLo1 hpsLo2 (String.ext e5)⟩
  · intro h
    rw [Prod.mk.injEq, Prod.mk.injEq, Prod.mk.injEq, Prod.mk.injEq] at h
    obtain ⟨e1, e2, e3, e4, e5⟩ := h
    unfold generateCacheKey cacheKeyBase
    rw [e1, e2, e3, e4, e5]

/-- Witness for C7 on a concrete validated parameter set. -/
theorem generateCacheKey_coherent_witness :
    generateCacheKey id ⟨"go", "", "popularity", 1, 20⟩
        = generateCacheKey id ⟨"go", "", "popularity", 1, 20⟩
      ↔ (("go" : String), ("" : String), ("popularity" : String), (1 : ℤ), (20 : ℤ))
          = (("go" : String), ("" : String), ("popularity" : String), (1 : ℤ), (20 : ℤ)) :=
  generateCacheKey_coherent id (fun _ _ h => h) ⟨"go", "", "", 0, 0⟩ ⟨"go", "", "", 0, 0⟩
    ⟨"go", "", "popularity", 1, 20⟩ ⟨"go", "", "popularity", 1, 20⟩ rfl rfl

/-- C10: `MarkStaleContentsAsDeleted` replaces each row by its
`markStaleRow` image; a row is changed only when it belongs to the given
provider, is live, and has `updated_at` before the threshold — and then
only its `deleted` flag and `updated_at` change; every other field and
every other table is untouched. -/
theorem MarkStale_frame (db : Db) (pid threshold now : ℕ) :
    (MarkStaleContentsAsDeleted db pid threshold now).rows
        = db.rows.map (markStaleRow pid threshold now)
    ∧ (∀ r : ContentRow,
        (r.providerId = pid ∧ r.updatedAt < threshold ∧ r.deleted = false →
          markStaleRow pid threshold now r = { r with deleted := true, updatedAt := now })
        ∧ (¬(r.providerId = pid ∧ r.updatedAt < threshold ∧ r.deleted = false) →
          markStaleRow pid threshold now r = r)
        ∧ (markStaleRow pid threshold now r).id = r.id
        ∧ (markStaleRow pid threshold now r).providerId = r.providerId
        ∧ (markStaleRow pid threshold now r).externalId = r.externalId
        ∧ (markStaleRow pid threshold now r).title = r.title
        ∧ (markStaleRow pid threshold now r).description = r.description
        ∧ (markStaleRow pid threshold now r).contentType = r.contentType
        ∧ (markStaleRow pid threshold now r).publishedAt = r.publishedAt
        ∧ (markStaleRow pid threshold now r).rawData = r.rawData
        ∧ (markStaleRow pid threshold now r).createdAt = r.createdAt)
    ∧ (MarkStaleContentsAsDeleted db pid threshold now).statsRows = db.statsRows
    ∧ (MarkStaleContentsAsDeleted db pid threshold now).scoreRows = db.scoreRows
    ∧ (MarkStaleContentsAsDeleted db pid threshold now).tags = db.tags
    ∧ (MarkStaleContentsAsDeleted db pid threshold now).links = db.links := by
  refine ⟨rfl, ?_, rfl, rfl, rfl, rfl⟩
  intro r
  unfold markStaleRow
  split_ifs with hc
  · exact ⟨fun _ => rfl, fun hn => absurd hc hn, rfl, rfl, rfl, rfl, rfl, rfl, rfl, rfl, rfl⟩
  · exact ⟨fun hy => absurd hy hc, fun _ => rfl, rfl, rfl, rfl, rfl, rfl, rfl, rfl, rfl, rfl⟩

/-- Witness for C10 at a concrete database. -/
theorem MarkStale_frame_witness :
    markStaleRow 1 10 11 rowStale = { rowStale with deleted := true, updatedAt := 11 }
    ∧ (MarkStaleContentsAsDeleted dbStale 1 10 11).statsRows = dbStale.statsRows := by
  have h := MarkStale_frame dbStale 1 10 11
  exact ⟨(h.2.1 rowStale).1 (by decide), h.2.2.1⟩

theorem ensureTag_tags_mono (db : Db) (n : String) (t : ℕ × String) (ht : t ∈ db.tags) :
    t ∈ (ensureTag db n).1.tags := by
  unfold ensureTag
  split
  · exact ht
  · exact List.mem_append_left _ ht

theorem ensureTag_links (db : Db) (n : String) : (ensureTag db n).1.links = db.links := by
  unfold ensureTag
  split <;> rfl

theorem ensureTag_rows (db : Db) (n : String) : (ensureTag db n).1.rows = db.rows := by
  unfold ensureTag
  split <;> rfl

theorem ensureTag_mem (db : Db) (n : String) :
    ((ensureTag db n).2, n) ∈ (ensureTag db n).1.tags := by
  unfold ensureTag
  split
  · next p hfind =>
    have hp := List.mem_of_find?_eq_some hfind
    have hpn : p.2 = n := by simpa using List.find?_some hfind
    have hpt : ((p.1, n) : ℕ × String) = p := by rw [← hpn]
    dsimp only
    rw [hpt]
    exact hp
  · exact List.mem_append_right _ (List.mem_singleton.mpr rfl)

theorem ensureLink_links_mem (db : Db) (cid tid : ℕ) :
    (cid, tid) ∈ (ensureLink db cid tid).links := by
  unfold ensureLink
  split
  · next h => exact h
  · exact List.mem_append_right _ (List.mem_singleton.mpr rfl)

theorem ensureLink_links_mono (db : Db) (cid tid : ℕ) (l : ℕ × ℕ) (hl : l ∈ db.links) :
    l ∈ (ensureLink db cid tid).links := by
  unfold ensureLink
  split
  · exact hl
  · exact List.mem_append_left _ hl

theorem ensureLink_tags (db : Db) (cid tid : ℕ) : (ensureLink db cid tid).tags = db.tags := by
  unfold ensureLink
  split <;> rfl

theorem ensureLink_rows (db : Db) (cid tid : ℕ) : (ensureLink db cid tid).rows = db.rows := by
  unfold ensureLink
  split <;> rfl

theorem addTagStep_tags_mono (cid : ℕ) (db : Db) (n : String) (t : ℕ × String)
    (ht : t ∈ db.tags) : t ∈ (addTagStep cid db n).tags := by
  unfold addTagStep
  dsimp only
  rw [ensureLink_tags]
  exact ensureTag_tags_mono _ _ _ ht

theorem addTagStep_links_mono (cid : ℕ) (db : Db) (n : String) (l : ℕ × ℕ)
    (hl : l ∈ db.links) : l ∈ (addTagStep cid db n).links := by
  unfold addTagStep
  dsimp only
  refine ensureLink_links_mono _ _ _ _ ?_
  rw [ensureTag_links]
  exact hl

theorem addTagStep_rows (cid : ℕ) (db : Db) (n : String) :
    (addTagStep cid db n).rows = db.rows := by
  unfold addTagStep
  dsimp only
  rw [ensureLink_rows, ensureTag_rows]

theorem addTagStep_establishes (cid : ℕ) (db : Db) (n : String) :
    ∃ tid, (tid, goToLower (goTrimSpace n)) ∈ (addTagStep cid db n).tags
      ∧ (cid, tid) ∈ (addTagStep cid db n).links := by
  unfold addTagStep
  dsimp only
  refine ⟨(ensureTag db (goToLower (goTrimSpace n))).2, ?_, ?_⟩
  · rw [ensureLink_tags]
    exact ensureTag_mem _ _
  · exact ensureLink_links_mem _ _ _

theorem ensureTag_nodup (db : Db) (n : String) (hnd : (db.tags.map Prod.snd).Nodup) :
    ((ensureTag db n).1.tags.map Prod.snd).Nodup := by
  unfold ensureTag
  split
  · exact hnd
  · next hfind =>
    rw [List.map_append]
    rw [List.nodup_append]
    refine ⟨hnd, by simp, ?_⟩
    intro a ha hb
    simp only [List.map_cons, List.map_nil, List.mem_singleton] at hb
    obtain ⟨p, hp, hpa⟩ := List.mem_map.mp ha
    have hnp := List.find?_eq_none.mp hfind p hp
    apply hnp
    rw [beq_iff_eq, hpa, hb]

theorem addTagStep_nodup (cid : ℕ) (db : Db) (n : String)
    (hnd : (db.tags.map Prod.snd).Nodup) : ((addTagStep cid db n).tags.map Prod.snd).Nodup := by
  unfold addTagStep
  dsimp only
  rw [ensureLink_tags]
  exact ensureTag_nodup _ _ hnd

theorem addTagStep_id (db : Db) (cid : ℕ) (n : String)
    (hnd : (db.tags.map Prod.snd).Nodup)
    (h : ∃ tid, (tid, goToLower (goTrimSpace n)) ∈ db.tags ∧ (cid, tid) ∈ db.links) :
    addTagStep cid db n = db := by
  obtain ⟨tid, htag, hlink⟩ := h
  unfold addTagStep
  dsimp only
  cases hfind : db.tags.find? (fun t => t.2 == goToLower (goTrimSpace n)) with
  | none =>
    exfalso
    have := List.find?_eq_none.mp hfind _ htag
    apply this
    rw [beq_iff_eq]
  | some p =>
    have hp := List.mem_of_find?_eq_some hfind
    have hpn : p.2 = goToLower (goTrimSpace n) := by simpa using List.find?_some hfind
    have hpt : p = (tid, goToLower (goTrimSpace n)) :=
      List.inj_on_of_nodup_map hnd hp htag (by simpa using hpn)
    unfold ensureTag
    rw [hfind]
    dsimp only
    unfold ensureLink
    have hmem : (cid, p.1) ∈ db.links := by
      rw [show p.1 = tid from congrArg Prod.fst hpt]
      exact hlink
    rw [if_pos hmem]

theorem AddTags_cons (db : Db) (cid : ℕ) (n : String) (rest : List String) :
    AddTags db cid (n :: rest) = AddTags (addTagStep cid db n) cid rest := rfl

theorem AddTags_tags_mono (cid : ℕ) :
    ∀ (ns : List String) (db : Db) (t : ℕ × String), t ∈ db.tags →
      t ∈ (AddTags db cid ns).tags := by
  intro ns
  induction ns with
  | nil => intro db t ht; exact ht
  | cons n rest ih =>
    intro db t ht
    rw [AddTags_cons]
    exact ih _ _ (addTagStep_tags_mono _ _ _ _ ht)

theorem AddTags_links_mono (cid : ℕ) :
    ∀ (ns : List String) (db : Db) (l : ℕ × ℕ), l ∈ db.links →
      l ∈ (AddTags db cid ns).links := by
  intro ns
  induction ns with
  | nil => intro db l hl; exact hl
  | cons n rest ih =>
    intro db l hl
    rw [AddTags_cons]
    exact ih _ _ (addTagStep_links_mono _ _ _ _ hl)

theorem AddTags_rows (cid : ℕ) :
    ∀ (ns : List String) (db : Db), (AddTags db cid ns).rows = db.rows := by
  intro ns
  induction ns with
  | nil => intro db; rfl
  | cons n rest ih =>
    intro db
    rw [AddTags_cons, ih, addTagStep_rows]

theorem AddTags_nodup (cid : ℕ) :
    ∀ (ns : List String) (db : Db), (db.tags.map Prod.snd).Nodup →
      ((AddTags db cid ns).tags.map Prod.snd).Nodup := by
  intro ns
  induction ns with
  | nil => intro db hnd; exact hnd
  | cons n rest ih =>
    intro db hnd
    rw [AddTags_cons]
    exact ih _ (addTagStep_nodup _ _ _ hnd)

theorem AddTags_establishes (cid : ℕ) :
    ∀ (ns : List String) (db : Db), ∀ n ∈ ns,
      ∃ tid, (tid, goToLower (goTrimSpace n)) ∈ (AddTags db cid ns).tags
        ∧ (cid, tid) ∈ (AddTags db cid ns).links := by
  intro ns
  induction ns with
  | nil => intro db n hn; cases hn
  | cons m rest ih =>
    intro db n hn
    rcases List.mem_cons.mp hn with rfl | hmem
    · obtain ⟨tid, ht, hl⟩ := addTagStep_establishes cid db n
      rw [AddTags_cons]
      exact ⟨tid, AddTags_tags_mono cid rest _ _ ht, AddTags_links_mono cid rest _ _ hl⟩
    · rw [AddTags_cons]
      exact ih _ n hmem

theorem AddTags_id_of (cid : ℕ) :
    ∀ (ns : List String) (db : Db), (db.tags.map Prod.snd).Nodup →
      (∀ n ∈ ns, ∃ tid, (tid, goToLower (goTrimSpace n)) ∈ db.tags ∧ (cid, tid) ∈ db.links) →
      AddTags db cid ns = db := by
  intro ns
  induction ns with
  | nil => intro db _ _; rfl
  | cons n rest ih =>
    intro db hnd hall
    have hstep : addTagStep cid db n = db :=
      addTagStep_id db cid n hnd (hall n (List.mem_cons_self _ _))
    rw [AddTags_cons, hstep]
    exact ih db hnd (fun m hm => hall m (List.mem_cons_of_mem _ hm))

/-- C4 (amended): `AddTags` maps each name to `lower(trim(name))` and —
without skipping names that normalize to the empty string — ensures a
tag row and a `(content_id, tag_id)` link for each of them, preserves
the existing tag and link sets and the uniqueness of tag names, and is
idempotent; the pure transformer commits the whole loop at once
(one transaction, no partial state). -/
theorem AddTags_spec (db : Db) (cid : ℕ) (tagNames : List String)
    (hnd : (db.tags.map Prod.snd).Nodup) :
    (∀ n ∈ tagNames, ∃ tid, (tid, goToLower (goTrimSpace n)) ∈ (AddTags db cid tagNames).tags
        ∧ (cid, tid) ∈ (AddTags db cid tagNames).links)
    ∧ (∀ t ∈ db.tags, t ∈ (AddTags db cid tagNames).tags)
    ∧ (∀ l ∈ db.links, l ∈ (AddTags db cid tagNames).links)
    ∧ ((AddTags db cid tagNames).tags.map Prod.snd).Nodup
    ∧ AddTags (AddTags db cid tagNames) cid tagNames = AddTags db cid tagNames := by
  refine ⟨AddTags_establishes cid tagNames db, fun t ht => AddTags_tags_mono cid tagNames db t ht,
    fun l hl => AddTags_links_mono cid tagNames db l hl, AddTags_nodup cid tagNames db hnd, ?_⟩
  exact AddTags_id_of cid tagNames (AddTags db cid tagNames) (AddTags_nodup cid tagNames db hnd)
    (AddTags_establishes cid tagNames db)

/-- Witness for C4 (amended): a duplicate-modulo-normalization run is
idempotent on a concrete database. -/
theorem AddTags_spec_witness :
    AddTags (AddTags emptyDb 1 ["Go", " go "]) 1 ["Go", " go "]
      = AddTags emptyDb 1 ["Go", " go "] :=
  (AddTags_spec emptyDb 1 ["Go", " go "] (by simp [emptyDb])).2.2.2.2

/-- C4 (counterexample): `AddTags` does NOT skip names that are empty
after trim/lowercase: adding the single name `" "` to an empty database
creates a tag row named `""` and links it. -/
theorem AddTags_inserts_empty_name :
    (AddTags emptyDb 1 [" "]).tags = [(1, "")]
    ∧ (AddTags emptyDb 1 [" "]).links = [(1, 1)] := ⟨rfl, rfl⟩

theorem CreateOrUpdateStats_rows (db : Db) (now cid : ℕ) (st : ContentStats) :
    (CreateOrUpdateStats db now cid st).rows = db.rows := by
  unfold CreateOrUpdateStats
  split <;> rfl

theorem CreateOrUpdateScore_rows (db : Db) (now cid : ℕ) (sc : ContentScore) :
    (CreateOrUpdateScore db now cid sc).rows = db.rows := by
  unfold CreateOrUpdateScore
  split <;> rfl

theorem processContent_rows (rules : ScoringRules) (scoringNow : ℤ) (db : Db) (now pid : ℕ)
    (nc : NormalizedContent) :
    (processContent rules scoringNow db now pid nc).rows = (Upsert db now pid nc).1.rows := by
  unfold processContent
  dsimp only
  split
  · rw [AddTags_rows]
    split
    · rw [CreateOrUpdateStats_rows]
    · rw [CreateOrUpdateScore_rows, CreateOrUpdateStats_rows]
  · split
    · rw [CreateOrUpdateStats_rows]
    · rw [CreateOrUpdateScore_rows, CreateOrUpdateStats_rows]

theorem Upsert_rows_untouched (db : Db) (now pid : ℕ) (nc : NormalizedContent) (i : ℕ)
    (r : ContentRow) (hget : db.rows[i]? = some r)
    (hr : ¬(r.providerId = pid ∧ r.externalId = nc.externalId)) :
    (Upsert db now pid nc).1.rows[i]? = some r := by
  have hbeq : (r.providerId == pid && r.externalId == nc.externalId) = false := by
    rw [Bool.eq_false_iff]
    intro hcontra
    rw [Bool.and_eq_true, beq_iff_eq, beq_iff_eq] at hcontra
    exact hr hcontra
  unfold Upsert
  split
  · dsimp only
    rw [List.getElem?_map, hget]
    rw [show Option.map (fun r => if r.providerId == pid && r.externalId == nc.externalId
        then upsertRowUpdate now nc r else r) (some r)
      = some (if r.providerId == pid && r.externalId == nc.externalId
        then upsertRowUpdate now nc r else r) from rfl]
    rw [if_neg (by rw [hbeq]; exact Bool.false_ne_true)]
  · dsimp only
    have hlt : i < db.rows.length := by
      by_contra hge
      push_neg at hge
      rw [List.getElem?_eq_none hge] at hget
      simp at hget
    rw [List.getElem?_append]
    rw [if_pos hlt]
    exact hget

theorem processAll_rows_untouched (rules : ScoringRules) (scoringNow : ℤ) (pid : ℕ) :
    ∀ (recs : List NormalizedContent) (db : Db) (t i : ℕ) (r : ContentRow),
      db.rows[i]? = some r →
      (∀ nc ∈ recs, ¬(r.providerId = pid ∧ r.externalId = nc.externalId)) →
      (processAll rules scoringNow pid db t recs).rows[i]? = some r := by
  intro recs
  induction recs with
  | nil => intro db t i r hget _; exact hget
  | cons nc rest ih =>
    intro db t i r hget hall
    refine ih _ _ _ _ ?_ (fun m hm => hall m (List.mem_cons_of_mem _ hm))
    rw [processContent_rows]
    exact Upsert_rows_untouched _ _ _ _ _ _ hget (hall nc (List.mem_cons_self _ _))

theorem Upsert_key_live (db : Db) (now pid : ℕ) (nc : NormalizedContent) :
    ∀ r' ∈ (Upsert db now pid nc).1.rows, r'.providerId = pid →
      r'.externalId = nc.externalId → r'.deleted = false ∧ r'.updatedAt = now := by
  intro r' hmem hp he
  unfold Upsert at hmem
  split at hmem
  · dsimp only at hmem
    obtain ⟨r, hr, hfr⟩ := List.mem_map.mp hmem
    by_cases hc : (r.providerId == pid && r.externalId == nc.externalId) = true
    · rw [if_pos hc] at hfr
      rw [← hfr]
      exact ⟨rfl, rfl⟩
    · rw [if_neg hc] at hfr
      exfalso
      apply hc
      rw [Bool.and_eq_true, beq_iff_eq, beq_iff_eq, hfr]
      exact ⟨hp, he⟩
  · next hfind =>
    dsimp only at hmem
    rcases List.mem_append.mp hmem with hold | hnew
    · exfalso
      have hnp := List.find?_eq_none.mp hfind r' hold
      apply hnp
      rw [Bool.and_eq_true, beq_iff_eq, beq_iff_eq]
      exact ⟨hp, he⟩
    · rw [List.mem_singleton] at hnew
      rw [hnew]
      exact ⟨rfl, rfl⟩

theorem Upsert_preserves_live (t0 : ℕ) (db : Db) (now pid : ℕ) (nc : NormalizedContent)
    (e : String) (ht : t0 < now)
    (hprev : ∀ r ∈ db.rows, r.providerId = pid → r.externalId = e →
      r.deleted = false ∧ t0 < r.updatedAt) :
    ∀ r' ∈ (Upsert db now pid nc).1.rows, r'.providerId = pid → r'.externalId = e →
      r'.deleted = false ∧ t0 < r'.updatedAt := by
  intro r' hmem hp he
  unfold Upsert at hmem
  split at hmem
  · dsimp only at hmem
    obtain ⟨r, hr, hfr⟩ := List.mem_map.mp hmem
    by_cases hc : (r.providerId == pid && r.externalId == nc.externalId) = true
    · rw [if_pos hc] at hfr
      rw [← hfr]
      exact ⟨rfl, ht⟩
    · rw [if_neg hc] at hfr
      rw [← hfr]
      exact hprev r hr (by rw [hfr]; exact hp) (by rw [hfr]; exact he)
  · dsimp only at hmem
    rcases List.mem_append.mp hmem with hold | hnew
    · exact hprev r' hold hp he
    · rw [List.mem_singleton] at hnew
      rw [hnew]
      exact ⟨rfl, ht⟩

theorem processContent_key_live (rules : ScoringRules) (scoringNow : ℤ) (db : Db)
    (now pid : ℕ) (nc : NormalizedContent) :
    ∀ r' ∈ (processContent rules scoringNow db now pid nc).rows, r'.providerId = pid →
      r'.externalId = nc.externalId → r'.deleted = false ∧ r'.updatedAt = now := by
  intro r' hmem
  rw [processContent_rows] at hmem
  exact Upsert_key_live db now pid nc r' hmem

theorem processContent_preserves_live (t0 : ℕ) (rules : ScoringRules) (scoringNow : ℤ)
    (db : Db) (now pid : ℕ) (nc : NormalizedContent) (e : String) (ht : t0 < now)
    (hprev : ∀ r ∈ db.rows, r.providerId = pid → r.externalId = e →
      r.deleted = false ∧ t0 < r.updatedAt) :
    ∀ r' ∈ (processContent rules scoringNow db now pid nc).rows, r'.providerId = pid →
      r'.externalId = e → r'.deleted = false ∧ t0 < r'.updatedAt := by
  intro r' hmem
  rw [processContent_rows] at hmem
  exact Upsert_preserves_live t0 db now pid nc e ht hprev r' hmem

theorem processAll_preserves_live (t0 : ℕ) (rules : ScoringRules) (scoringNow : ℤ)
    (pid : ℕ) (e : String) :
    ∀ (recs : List NormalizedContent) (db : Db) (t : ℕ), t0 < t →
      (∀ r ∈ db.rows, r.providerId = pid → r.externalId = e →
        r.deleted = false ∧ t0 < r.updatedAt) →
      ∀ r' ∈ (processAll rules scoringNow pid db t recs).rows, r'.providerId = pid →
        r'.externalId = e → r'.deleted = false ∧ t0 < r'.updatedAt := by
  intro recs
  induction recs with
  | nil => intro db t _ hprev; exact hprev
  | cons nc rest ih =>
    intro db t ht hprev
    exact ih _ (t + 1) (by omega)
      (processContent_preserves_live t0 rules scoringNow db t pid nc e ht hprev)

theorem processAll_key_live (t0 : ℕ) (rules : ScoringRules) (scoringNow : ℤ) (pid : ℕ) :
    ∀ (recs : List NormalizedContent) (db : Db) (t : ℕ), t0 < t → ∀ nc ∈ recs,
      ∀ r' ∈ (processAll rules scoringNow pid db t recs).rows, r'.providerId = pid →
        r'.externalId = nc.externalId → r'.deleted = false ∧ t0 < r'.updatedAt := by
  intro recs
  induction recs with
  | nil => intro db t _ nc hnc; cases hnc
  | cons nc0 rest ih =>
    intro db t ht nc hnc
    rcases List.mem_cons.mp hnc with rfl | hmem
    · refine processAll_preserves_live t0 rules scoringNow pid nc.externalId rest _ (t + 1)
        (by omega) ?_
      intro r hr hp he
      obtain ⟨hd, hu⟩ := processContent_key_live rules scoringNow db t pid nc r hr hp he
      exact ⟨hd, by omega⟩
    · exact ih _ (t + 1) (by omega) nc hmem

theorem markStaleRow_id_of (pid threshold now : ℕ) (r : ContentRow)
    (h : ¬ r.updatedAt < threshold) : markStaleRow pid threshold now r = r := by
  unfold markStaleRow
  rw [if_neg (by tauto)]

theorem markStaleRow_key (pid threshold now : ℕ) (r : ContentRow) :
    (markStaleRow pid threshold now r).providerId = r.providerId
    ∧ (markStaleRow pid threshold now r).externalId = r.externalId := by
  unfold markStaleRow
  split <;> exact ⟨rfl, rfl⟩

/-- C3: after `syncProvider` completes on record set `recs` (with every
per-record write succeeding, which the pure model guarantees, and every
pre-existing row last written before the sync-start instant `t0`), every
row of the provider whose external id occurs in `recs` is live
(`Upsert` resets `deleted` to 0 and refreshes `updated_at` past `t0`,
so the stale sweep spares it), and every row of the provider that was
live before the sync and whose external id does not occur in `recs` is
soft-deleted by `MarkStaleContentsAsDeleted`. -/
theorem syncProvider_stale_sweep (rules : ScoringRules) (scoringNow : ℤ) (db : Db)
    (pid t0 : ℕ) (recs : List NormalizedContent)
    (hfresh : ∀ r ∈ db.rows, r.updatedAt < t0) :
    (∀ r'' ∈ (syncProvider rules scoringNow db pid t0 recs).rows, r''.providerId = pid →
        (∃ nc ∈ recs, nc.externalId = r''.externalId) → r''.deleted = false)
    ∧ (∀ (i : ℕ) (r r' : ContentRow), db.rows[i]? = some r →
        (syncProvider rules scoringNow db pid t0 recs).rows[i]? = some r' →
        r.providerId = pid → r.deleted = false →
        (∀ nc ∈ recs, nc.externalId ≠ r.externalId) → r'.deleted = true) := by
  constructor
  · rintro r'' hmem hp ⟨nc, hnc, he⟩
    unfold syncProvider MarkStaleContentsAsDeleted at hmem
    dsimp only at hmem
    obtain ⟨r', hr', heq⟩ := List.mem_map.mp hmem
    have hkey := markStaleRow_key pid t0 (t0 + 1 + recs.length) r'
    have hp' : r'.providerId = pid := by rw [← hkey.1, heq]; exact hp
    have he' : r'.externalId = nc.externalId := by rw [← hkey.2, heq]; exact he.symm
    obtain ⟨hd, hu⟩ := processAll_key_live t0 rules scoringNow pid recs db (t0 + 1)
      (by omega) nc hnc r' hr' hp' he'
    rw [← heq, markStaleRow_id_of _ _ _ _ (by omega)]
    exact hd
  · intro i r r' hget hget' hp hlive hnotin
    unfold syncProvider MarkStaleContentsAsDeleted at hget'
    dsimp only at hget'
    rw [List.getElem?_map] at hget'
    have hmid : (processAll rules scoringNow pid db (t0 + 1) recs).rows[i]? = some r :=
      processAll_rows_untouched rules scoringNow pid recs db (t0 + 1) i r hget
        (fun nc h hcontra => hnotin nc h hcontra.2.symm)
    rw [hmid] at hget'
    have hfr : markStaleRow pid t0 (t0 + 1 + recs.length) r = r' := by
      simpa using hget'
    have hrmem : r ∈ db.rows := List.getElem?_mem hget
    rw [← hfr]
    unfold markStaleRow
    rw [if_pos ⟨hp, hfresh r hrmem, hlive⟩]

/-- Witness for C3: a one-row database swept with an empty record set. -/
theorem syncProvider_stale_sweep_witness :
    ({ rowStale with deleted := true, updatedAt := 11 } : ContentRow).deleted = true :=
  (syncProvider_stale_sweep defaultRules 0 dbStale 1 10 [] (by decide)).2 0 rowStale
    { rowStale with deleted := true, updatedAt := 11 } rfl rfl rfl rfl
    (fun nc h => absurd h (List.not_mem_nil nc))

/-- C6: when the search handler receives parameters that fail
validation (an unknown `sort` value, or an unknown `type` value), the
handler maps the use case's validation error — like every other error —
to HTTP 500 with a `{error}` JSON body, not to HTTP 400. -/
theorem handleSearch_validation_error_gives_500 :
    handleSearch (α := Unit) id (fun _ => none) (fun _ => .ok ([], 0)) "" "" "rating" "" ""
        = (500, ResponseBody.errorBody
            ("geçersiz sıralama kriteri: rating (popularity veya relevance olmalı)"))
      ∧ handleSearch (α := Unit) id (fun _ => none) (fun _ => .ok ([], 0)) "" "movie" "" "" ""
        = (500, ResponseBody.errorBody ("geçersiz içerik türü: movie"))
      ∧ (500 : ℤ) ≠ 400 := by
  exact ⟨rfl, rfl, by norm_num⟩

/-- C8 (counterexample): requesting page 5 (validated unchanged) while
the store reports only 10 matches produces the envelope
`{page := 5, page_size := 20, total_items := 10, total_pages := 1}`:
`total_items > 0` but `page > total_pages`, refuting the claimed
`page ≤ total_pages` invariant. -/
theorem execute_page_can_exceed_totalPages :
    execute (α := Unit) id (fun _ => none) (fun _ => .ok ([], 10))
        ⟨"", "", "popularity", 5, 20⟩
        = .ok { items := [], pagination := ⟨5, 20, 10, 1⟩ }
      ∧ (0 : ℤ) < 10 ∧ ¬ ((5 : ℤ) ≤ 1) := by
  refine ⟨rfl, by norm_num, by norm_num⟩

/-- C8 (amended): on a cache miss the computed envelope always satisfies
`total_pages = ⌈total_items / page_size⌉`, and its `page` field echoes
the requested (validated) page — which, as the counterexample shows, may
exceed `total_pages`. -/
theorem execute_totalPages_is_ceil {α : Type} (digest : String → String)
    (cacheGet : String → Option (SearchResult α))
    (repoSearch : SearchParams → Except String (List α × ℤ))
    (p q : SearchParams) (contents : List α) (total : ℤ)
    (hval : validateParams p = .ok q)
    (hmiss : cacheGet (generateCacheKey digest q) = none)
    (hrepo : repoSearch q = .ok (contents, total)) (htot : 0 ≤ total) :
    execute digest cacheGet repoSearch p
      = .ok { items := contents
              pagination :=
                { page := q.page, pageSize := q.pageSize, totalItems := total,
                  totalPages := ⌈(total : ℚ) / (q.pageSize : ℚ)⌉ } } := by
  have hps : 1 ≤ q.pageSize := (validateParams_ok_inv p q hval).2.2.2.2.1
  unfold execute
  rw [hval]
  dsimp only
  rw [hmiss]
  dsimp only
  rw [hrepo]
  dsimp only
  rw [tdiv_ceil_eq total q.pageSize htot (by omega)]

theorem fetchLoop_succ {ι : Type} (pages : ℤ → FeedPage ι)
    (norm : ι → Option NormalizedContent) (fuel : ℕ) (page : ℤ)
    (acc : List NormalizedContent) :
    fetchLoop pages norm (fuel + 1) page acc
      = if (acc.length : ℤ) ≥ (pages page).total ∨ (acc.length : ℤ) ≥ 1000 then acc
        else fetchLoop pages norm fuel (page + 1) (acc ++ normalizePage norm (pages page).items) :=
  rfl

theorem normalizePage_replicate {ι : Type} (norm : ι → Option NormalizedContent) (a : ι)
    (b : NormalizedContent) (h : norm a = some b) (n : ℕ) :
    normalizePage norm (List.replicate n a) = List.replicate n b := by
  induction n with
  | zero => rfl
  | succ k ih =>
    simp only [normalizePage, List.replicate_succ, List.filterMap_cons, h] at ih ⊢
    rw [ih]

theorem fetchLoop_length_bound {ι : Type} (pages : ℤ → FeedPage ι)
    (norm : ι → Option NormalizedContent) (L : ℕ)
    (hL : ∀ n, ((pages n).items).length ≤ L) :
    ∀ fuel page acc, acc.length ≤ 999 + L →
      (fetchLoop pages norm fuel page acc).length ≤ 999 + L := by
  intro fuel
  induction fuel with
  | zero => intro page acc hacc; exact hacc
  | succ f ih =>
    intro page acc hacc
    rw [fetchLoop_succ]
    split
    · exact hacc
    · next hcond =>
      push_neg at hcond
      have hlt : acc.length ≤ 999 := by
        have := hcond.2
        omega
      apply ih
      have hfm : (normalizePage norm (pages page).items).length ≤ L :=
        le_trans (List.length_filterMap_le _ _) (hL page)
      simp only [List.length_append]
      omega

theorem fetchLoop_mem_prop {ι : Type} (pages : ℤ → FeedPage ι)
    (norm : ι → Option NormalizedContent) (P : NormalizedContent → Prop)
    (hnorm : ∀ i nc, norm i = some nc → P nc) :
    ∀ fuel page acc, (∀ nc ∈ acc, P nc) → ∀ nc ∈ fetchLoop pages norm fuel page acc, P nc := by
  intro fuel
  induction fuel with
  | zero => intro page acc hacc nc hmem; exact hacc nc hmem
  | succ f ih =>
    intro page acc hacc nc hmem
    rw [fetchLoop_succ] at hmem
    split at hmem
    · exact hacc nc hmem
    · refine ih (page + 1) _ ?_ nc hmem
      intro x hx
      rcases List.mem_append.mp hx with h1 | h2
      · exact hacc x h1
      · obtain ⟨i, -, hi⟩ := List.mem_filterMap.mp h2
        exact hnorm i x hi

theorem FetchContents_mem_prop {ι : Type} (pages : ℤ → FeedPage ι)
    (norm : ι → Option NormalizedContent) (P : NormalizedContent → Prop)
    (hnorm : ∀ i nc, norm i = some nc → P nc) :
    ∀ nc ∈ FetchContents pages norm, P nc := by
  unfold FetchContents
  dsimp only
  split
  · intro nc hmem; simp at hmem
  · refine fetchLoop_mem_prop pages norm P hnorm _ 2 _ ?_
    intro x hx
    obtain ⟨i, -, hi⟩ := List.mem_filterMap.mp hx
    exact hnorm i x hi

/-- C9 (counterexample): a provider whose pages carry 999 valid records
each with hint total=10000, per_page=999 makes `FetchContents` return
1998 records: the 1000-record safety check runs before a fetched page is
appended, so the bound is overshot by up to one page. -/
theorem FetchContents_can_exceed_1000 :
    (FetchContents (fun _ => overshootPage)
        (fun raw => jsonNormalize (fun _ => some 0) raw "")).length = 1998
      ∧ 1000 < 1998 := by
  have hnorm : (fun raw => jsonNormalize (fun _ => some 0) raw "") overshootItem
      = some overshootNC := rfl
  have hrep := normalizePage_replicate (fun raw => jsonNormalize (fun _ => some 0) raw "")
    overshootItem overshootNC hnorm
  refine ⟨?_, by norm_num⟩
  have htot : overshootPage.total = 10000 := rfl
  have hitems : overshootPage.items = List.replicate 999 overshootItem := rfl
  have h0 : FetchContents (fun _ => overshootPage)
        (fun raw => jsonNormalize (fun _ => some 0) raw "")
      = fetchLoop (fun _ => overshootPage) (fun raw => jsonNormalize (fun _ => some 0) raw "")
          10 2 (List.replicate 999 overshootNC) := by
    unfold FetchContents
    dsimp only
    have hcond : ¬ ((0 : ℤ) ≥ overshootPage.total ∨ (0 : ℤ) ≥ 1000) := by
      rw [htot]; push_neg; norm_num
    rw [if_neg hcond]
    rw [show ((if (overshootPage.perPage > 0) then
          Int.tdiv (overshootPage.total + overshootPage.perPage - 1) overshootPage.perPage
          else 1) - 1).toNat = 10 from rfl]
    rw [hitems, hrep]
  rw [h0]
  have hlen1 : ((List.replicate 999 overshootNC).length : ℤ) = 999 := by
    rw [List.length_replicate]; norm_num
  rw [show (10 : ℕ) = 9 + 1 from rfl, fetchLoop_succ]
  have hcond2 : ¬ (((List.replicate 999 overshootNC).length : ℤ)
        ≥ ((fun _ => overshootPage) (2 : ℤ)).total
      ∨ ((List.replicate 999 overshootNC).length : ℤ) ≥ 1000) := by
    rw [hlen1, show ((fun _ => overshootPage) (2 : ℤ)).total = 10000 from rfl]
    push_neg
    norm_num
  rw [if_neg hcond2]
  rw [show ((fun _ => overshootPage) (2 : ℤ)).items = List.replicate 999 overshootItem from rfl]
  rw [hrep, ← List.replicate_add]
  rw [show (999 + 999 : ℕ) = 1998 from rfl]
  rw [show (9 : ℕ) = 8 + 1 from rfl, fetchLoop_succ]
  have hcond3 : ((List.replicate 1998 overshootNC).length : ℤ)
        ≥ ((fun _ => overshootPage) (3 : ℤ)).total
      ∨ ((List.replicate 1998 overshootNC).length : ℤ) ≥ 1000 := by
    right
    rw [List.length_replicate]
    norm_num
  rw [if_pos hcond3]
  rw [List.length_replicate]

/-- C9 (amended): if every page of the remote yields at most `L`
records, `FetchContents` returns at most `999 + L` records — before any
page is appended the accumulated count is at most 999, and the append
adds at most one page's yield.  (The flat 1000 bound fails, as the
counterexample shows.) -/
theorem FetchContents_length_bound {ι : Type} (pages : ℤ → FeedPage ι)
    (norm : ι → Option NormalizedContent) (L : ℕ)
    (hL : ∀ n, ((pages n).items).length ≤ L) :
    (FetchContents pages norm).length ≤ 999 + L := by
  unfold FetchContents
  dsimp only
  split
  · simp
  · refine fetchLoop_length_bound pages norm L hL _ 2 _ ?_
    have := le_trans (List.length_filterMap_le norm (pages 1).items) (hL 1)
    simp only [normalizePage]
    omega

/-- Witness for C9 (amended) on the overshooting provider. -/
theorem FetchContents_length_bound_witness :
    (FetchContents (fun _ => overshootPage)
        (fun raw => jsonNormalize (fun _ => some 0) raw "")).length ≤ 999 + 999 :=
  FetchContents_length_bound (fun _ => overshootPage)
    (fun raw => jsonNormalize (fun _ => some 0) raw "") 999
    (fun n => by
      rw [show ((fun _ => overshootPage) n).items = List.replicate 999 overshootItem from rfl,
        List.length_replicate])

/-- C5 (counterexample): the json_v1 normalizer has no check on the
external id: a feed item with an empty `id`, a valid date and a valid
type is normalized and returned by `FetchContents` with
`external_id = ""`. -/
theorem jsonFetch_returns_empty_externalId :
    FetchContents (fun _ => emptyIdPage) (fun raw => jsonNormalize (fun _ => some 0) raw "")
      = [⟨"", "t", "", "video", 0, ⟨0, 0, 0, 0⟩, [], ""⟩]
    ∧ (⟨"", "t", "", "video", 0, ⟨0, 0, 0, 0⟩, [], ""⟩ : NormalizedContent).externalId = "" :=
  ⟨rfl, rfl⟩

/-- C5 (amended): the xml_v1 adapter does drop records whose external id
is empty — `normalize` rejects them, so no record with an empty
external_id ever appears in its `FetchContents` output; the json_v1
adapter performs no such check (see the counterexample). -/
theorem xmlFetch_no_empty_externalId :
    (∀ (p1 p2 : String → Option ℤ) (raw : XMLItem) (rd : String),
        raw.id = "" → xmlNormalize p1 p2 raw rd = none)
    ∧ (∀ (p1 p2 : String → Option ℤ) (rawOf : XMLItem → String) (pages : ℤ → FeedPage XMLItem),
        ∀ nc ∈ FetchContents pages (fun raw => xmlNormalize p1 p2 raw (rawOf raw)),
          nc.externalId ≠ "") := by
  constructor
  · intro p1 p2 raw rd h
    unfold xmlNormalize
    rw [if_pos h]
  · intro p1 p2 rawOf pages
    refine FetchContents_mem_prop pages _ _ ?_
    intro i nc h
    unfold xmlNormalize at h
    by_cases hid : i.id = ""
    · rw [if_pos hid] at h
      exact absurd h (by simp)
    · rw [if_neg hid] at h
      rcases horelse : (p1 i.pubDate).orElse (fun _ => p2 i.pubDate) with - | t
      · rw [horelse] at h
        exact absurd h (by simp)
      · rw [horelse] at h
        dsimp only at h
        by_cases hv : i.itemType = "video"
        · rw [if_pos (Or.inl hv), if_pos hv, Option.some.injEq] at h
          subst h
          exact hid
        · by_cases ha : i.itemType = "article"
          · rw [if_pos (Or.inr ha), if_neg hv, Option.some.injEq] at h
            subst h
            exact hid
          · rw [if_neg (by tauto)] at h
            exact absurd h (by simp)

/-- Witness for C5 (amended): a concrete empty-id xml item is dropped,
and a concrete one-page xml feed yields only non-empty external ids. -/
theorem xmlFetch_no_empty_externalId_witness :
    xmlNormalize (fun _ => some 0) (fun _ => some 0)
        ⟨"", "t", "video", ⟨0, 0, 0, 0⟩, "2024-01-01", []⟩ "" = none
    ∧ (⟨"a", "t", "", "video", 0, ⟨0, 0, 0, 0⟩, [], ""⟩ : NormalizedContent).externalId ≠ "" := by
  refine ⟨xmlFetch_no_empty_externalId.1 _ _ _ _ rfl, ?_⟩
  refine xmlFetch_no_empty_externalId.2 (fun _ => some 0) (fun _ => some 0) (fun _ => "")
    (fun _ => xmlOnePage) ⟨"a", "t", "", "video", 0, ⟨0, 0, 0, 0⟩, [], ""⟩ ?_
  rw [show FetchContents (fun _ => xmlOnePage)
      (fun raw => xmlNormalize (fun _ => some 0) (fun _ => some 0) raw ((fun _ => "") raw))
      = [⟨"a", "t", "", "video", 0, ⟨0, 0, 0, 0⟩, [], ""⟩] from rfl]
  exact List.mem_singleton.mpr rfl

/-- Witness for C8 (amended) on a concrete request and store answer. -/
theorem execute_totalPages_is_ceil_witness :
    execute (α := Unit) id (fun _ => none) (fun _ => .ok ([], 10))
        ⟨"", "", "popularity", 5, 20⟩
      = .ok { items := []
              pagination :=
                { page := 5, pageSize := 20, totalItems := 10,
                  totalPages := ⌈(10 : ℚ) / ((20 : ℤ) : ℚ)⌉ } } :=
  execute_totalPages_is_ceil id (fun _ => none) (fun _ => .ok ([], 10))
    ⟨"", "", "popularity", 5, 20⟩ ⟨"", "", "popularity", 5, 20⟩ [] 10
    rfl rfl rfl (by norm_num)

end SearchEngine
